import Mathlib

/-
Verification of the lad structured-logging core (github.com/tnngo/lad).

The repository ships the ladcore test-suite and the adapter packages, while
the ladcore implementation itself (levels, fields, the JSON encoder, the
CheckedEntry token, the tee / lazy-with core variants and the line-buffering
writer) is not present in the source tree.  Those parts are therefore
modelled here from the specification, with the test files used to pin
concrete observable behaviour (diagnostic strings, fallback renderings,
call-count expectations).
-/

namespace Lad

/-- Modelled from the spec: the Level type of the missing ladcore level
implementation.  Levels form a strict numeric order
debug < info < warn < error < dpanic < panic < fatal. -/
abbrev Level := Int

def debugLevel : Level := -1

def infoLevel : Level := 0

def warnLevel : Level := 1

def errorLevel : Level := 2

def dpanicLevel : Level := 3

def panicLevel : Level := 4

def fatalLevel : Level := 5

/-- Modelled from the spec: the missing plain-level LevelEnabler.  A plain
level threshold enables a level iff `other >= self`. -/
def Level.enabled (self other : Level) : Bool := decide (other ≥ self)

/-- Modelled from the spec: the textual name of a level, used by the
lowercase level renderer. -/
def levelString (l : Level) : String :=
  if l = debugLevel then "debug"
  else if l = infoLevel then "info"
  else if l = warnLevel then "warn"
  else if l = errorLevel then "error"
  else if l = dpanicLevel then "dpanic"
  else if l = panicLevel then "panic"
  else if l = fatalLevel then "fatal"
  else "unknown"

/-- Modelled from the spec: a timestamp of the missing ladcore entry model.
The zero value is distinguished because a zero-value timestamp is omitted
from encoder output; a non-zero timestamp carries its epoch nanoseconds. -/
inductive LTime where
  | zero
  | stamp (unixNanos : Int)
  deriving DecidableEq

/-- A rendered JSON value, the output alphabet of the modelled JSON
encoder. -/
inductive JsonVal where
  | null
  | bool (b : Bool)
  | int (n : Int)
  | str (s : String)
  | arr (xs : List JsonVal)
  | obj (kvs : List (String × JsonVal))

/-- Modelled from the spec: the opaque interface payload slot of a field.
A reflect-typed payload is either the literal nil interface, a typed
pointer holding nil, a serialisable value (already abstracted to its JSON
shape), or a value the reflected encoder cannot serialise. -/
inductive RPayload where
  | absent
  | anyNil
  | typedNil
  | val (v : JsonVal)
  | unserializable

/-- Modelled from the spec: the type tag of a field; exactly one payload
slot is meaningful per tag. -/
inductive FieldType where
  | boolT
  | intT
  | stringT
  | durationT
  | timeT
  | reflectT
  | namespaceT
  | skipT
  deriving DecidableEq

/-- Modelled from the spec: the missing ladcore Field record
`{key, type, numeric payload, string payload, opaque interface payload}`. -/
structure Field where
  key : String
  type : FieldType
  integer : Int
  string : String
  payload : RPayload

def strField (k v : String) : Field :=
  { key := k, type := .stringT, integer := 0, string := v, payload := .absent }

def intField (k : String) (n : Int) : Field :=
  { key := k, type := .intT, integer := n, string := "", payload := .absent }

def boolField (k : String) (b : Bool) : Field :=
  { key := k, type := .boolT, integer := if b then 1 else 0, string := "", payload := .absent }

/-- A duration field; the numeric payload is the duration in nanoseconds. -/
def durationField (k : String) (nanos : Int) : Field :=
  { key := k, type := .durationT, integer := nanos, string := "", payload := .absent }

/-- A time field; the numeric payload is the timestamp in epoch nanoseconds. -/
def timeField (k : String) (unixNanos : Int) : Field :=
  { key := k, type := .timeT, integer := unixNanos, string := "", payload := .absent }

def reflectField (k : String) (p : RPayload) : Field :=
  { key := k, type := .reflectT, integer := 0, string := "", payload := p }

def namespaceField (k : String) : Field :=
  { key := k, type := .namespaceT, integer := 0, string := "", payload := .absent }

/-- Modelled from the spec: the missing ladcore Entry record
`{level, timestamp, logger-name, message, caller (optional), stack
(optional)}`. -/
structure Entry where
  level : Level := infoLevel
  time : LTime := .zero
  loggerName : String := ""
  message : String := ""
  caller : Option String := none
  function : String := ""
  stack : Option String := none

/-- Modelled from the spec: the missing EncoderConfig: named output keys for
each entry attribute plus pluggable render hooks.  A key set to the empty
string suppresses that attribute; an absent hook selects the encoder's
fallback rendering (raw nanoseconds for time and duration). -/
structure EncoderConfig where
  messageKey : String := ""
  levelKey : String := ""
  timeKey : String := ""
  nameKey : String := ""
  callerKey : String := ""
  functionKey : String := ""
  stacktraceKey : String := ""
  encodeLevel : Option (Level → JsonVal) := none
  encodeTime : Option (Int → JsonVal) := none
  encodeDuration : Option (Int → JsonVal) := none
  reflectHook : Option (JsonVal → JsonVal) := none

/-- The lowercase level renderer used by the json-encoder tests. -/
def lowercaseLevelEncoder : Level → JsonVal := fun l => .str (levelString l)

/-- Modelled from the spec: rendering of one non-marker field by the missing
JSON encoder.  Time and duration fields fall back to their integer
nanosecond payload when no render hook is configured; a reflect-typed nil
payload (literal nil interface or typed pointer holding nil) renders as
JSON null; an unserialisable reflect payload is contained as an in-place
error marker instead of aborting the record. -/
def encodeField (cfg : EncoderConfig) (f : Field) : String × JsonVal :=
  match f.type with
  | .boolT => (f.key, .bool (f.integer ≠ 0))
  | .intT => (f.key, .int f.integer)
  | .stringT => (f.key, .str f.string)
  | .durationT =>
    match cfg.encodeDuration with
    | some hook => (f.key, hook f.integer)
    | none => (f.key, .int f.integer)
  | .timeT =>
    match cfg.encodeTime with
    | some hook => (f.key, hook f.integer)
    | none => (f.key, .int f.integer)
  | .reflectT =>
    match f.payload with
    | .anyNil => (f.key, .null)
    | .typedNil => (f.key, .null)
    | .val v =>
      match cfg.reflectHook with
      | some hook => (f.key, hook v)
      | none => (f.key, v)
    | .absent => (f.key, .null)
    | .unserializable => (f.key, .str "<encoding error>")
  | .namespaceT => (f.key, .obj [])
  | .skipT => (f.key, .null)

/-- Modelled from the spec: rendering of a field list by the missing JSON
encoder.  A skip field is omitted; a namespace marker opens a nested JSON
object that receives every subsequent field. -/
def encodeFields (cfg : EncoderConfig) : List Field → List (String × JsonVal)
  | [] => []
  | f :: rest =>
    match f.type with
    | .skipT => encodeFields cfg rest
    | .namespaceT => [(f.key, .obj (encodeFields cfg rest))]
    | _ => encodeField cfg f :: encodeFields cfg rest

/-- Modelled from the spec: EncodeEntry of the missing JSON encoder.  The
configured keys render in the fixed order
message/level/time/name/caller/function/stacktrace — only those with a
non-empty configured key, the level only when a level renderer is
configured, and the time omitted when zero-valued — followed by the fields
in call order.  The function is total: per-field encoding failures are
contained in place, so encoding never returns an error. -/
def encodeEntry (cfg : EncoderConfig) (e : Entry) (fields : List Field) :
    List (String × JsonVal) :=
  (if cfg.messageKey ≠ "" then [(cfg.messageKey, .str e.message)] else [])
  ++ (match cfg.encodeLevel with
      | some hook => if cfg.levelKey ≠ "" then [(cfg.levelKey, hook e.level)] else []
      | none => [])
  ++ (match e.time with
      | .zero => []
      | .stamp n =>
        if cfg.timeKey ≠ "" then
          match cfg.encodeTime with
          | some hook => [(cfg.timeKey, hook n)]
          | none => [(cfg.timeKey, .int n)]
        else [])
  ++ (if cfg.nameKey ≠ "" ∧ e.loggerName ≠ "" then [(cfg.nameKey, .str e.loggerName)] else [])
  ++ (match e.caller with
      | some c =>
        (if cfg.callerKey ≠ "" then [(cfg.callerKey, .str c)] else [])
        ++ (if cfg.functionKey ≠ "" then [(cfg.functionKey, .str e.function)] else [])
      | none => [])
  ++ (match e.stack with
      | some s => if cfg.stacktraceKey ≠ "" then [(cfg.stacktraceKey, .str s)] else []
      | none => [])
  ++ encodeFields cfg fields

/-- Modelled from the spec: the missing CheckedEntry token.  It carries the
entry, the ordered list of accepting cores (by id), the one-shot
reuse-detection flag, and — as observations — the contents of the
configured error sink and the record deliveries performed so far. -/
structure CheckedEntry where
  entry : Entry
  cores : List Nat
  dirty : Bool
  errorOutput : List String
  deliveries : List (Nat × Entry × List Field)

/-- Modelled from the spec: the diagnostic emitted on an illegal reuse of a
CheckedEntry; the test-suite pins the marker text
"Unsafe CheckedEntry re-use near Entry". -/
def reuseDiagnostic (e : Entry) : String :=
  "Unsafe CheckedEntry re-use near Entry " ++ e.message

/-- A fresh CheckedEntry allocated by the first accepting check. -/
def CheckedEntry.fresh (e : Entry) : CheckedEntry :=
  { entry := e, cores := [], dirty := false, errorOutput := [], deliveries := [] }

/-- Modelled from the spec: a core that accepts a record appends itself to
the token's acceptance list during Check. -/
def CheckedEntry.addCore (ce : CheckedEntry) (coreId : Nat) : CheckedEntry :=
  { ce with cores := ce.cores ++ [coreId] }

/-- Modelled from the spec: Write on the missing CheckedEntry.  The first
Write delivers the record to every accepting core and marks the token
consumed; any further Write reports the illegal-reuse diagnostic to the
configured error sink, performs no delivery, and (being a total function)
never crashes. -/
def CheckedEntry.write (ce : CheckedEntry) (fs : List Field) : CheckedEntry :=
  if ce.dirty then
    { ce with errorOutput := ce.errorOutput ++ [reuseDiagnostic ce.entry] }
  else
    { ce with
      dirty := true
      deliveries := ce.deliveries ++ ce.cores.map (fun coreId => (coreId, ce.entry, fs)) }

/-- A sequence of Write calls on the same token instance. -/
def CheckedEntry.writeAll (ce : CheckedEntry) (fss : List (List Field)) : CheckedEntry :=
  fss.foldl CheckedEntry.write ce

/-- Modelled from the spec: the missing leaf core — an encoder+sink pair
identified by `id`, a plain level threshold and an accumulated, immutable
field prefix (`accum`). -/
structure LeafCore where
  id : Nat
  enab : Level
  accum : List Field

/-- Modelled from the spec: `Enabled` of the leaf core, an O(1) check
against the LevelEnabler. -/
def LeafCore.enabledAt (c : LeafCore) (l : Level) : Bool := Level.enabled c.enab l

/-- Modelled from the spec: `With` of the missing leaf core returns a new
core carrying the receiver's accumulated fields followed by the new ones;
the receiver value itself is unchanged. -/
def LeafCore.withFields (c : LeafCore) (fs : List Field) : LeafCore :=
  { c with accum := c.accum ++ fs }

/-- Modelled from the spec: `Check` of the missing leaf core: if the entry's
level is not enabled the input token is returned unchanged (nil stays
nil); otherwise the core appends itself to the token, allocating a fresh
one when the input was nil. -/
def LeafCore.check (c : LeafCore) (e : Entry) (ce : Option CheckedEntry) :
    Option CheckedEntry :=
  if c.enabledAt e.level then
    some ((ce.getD (CheckedEntry.fresh e)).addCore c.id)
  else ce

/-- Modelled from the spec: the field list rendered by a `Write` on the leaf
core — the accumulated field prefix followed by the extra fields of the
call. -/
def LeafCore.writtenFields (c : LeafCore) (extra : List Field) : List Field :=
  c.accum ++ extra

/-- Modelled from the spec: one child of a tee core, abstracted to its
registration identity and the error results its sink produces on Write and
Sync (`none` meaning success). -/
structure ChildCore where
  id : Nat
  writeErr : Option String
  syncErr : Option String

/-- The error combinator of the tee: a combined error is the list of all
underlying failures, in order, the empty list meaning nil error. -/
def errList : Option String → List String
  | none => []
  | some e => [e]

/-- Modelled from the spec: `Write` of the missing tee core — Write is
performed on every child in registration order and the returned error is
the combination of all child errors.  The result pairs the delivery events
(in order) with the combined error. -/
def teeWrite : List ChildCore → Entry → List Field →
    List (Nat × Entry × List Field) × List String
  | [], _, _ => ([], [])
  | c :: rest, e, fs =>
    let r := teeWrite rest e fs
    ((c.id, e, fs) :: r.1, errList c.writeErr ++ r.2)

/-- Modelled from the spec: `Sync` of the missing tee core — every child is
flushed and the combined error aggregates all children's failures. -/
def teeSync : List ChildCore → List String
  | [] => []
  | c :: rest => errList c.syncErr ++ teeSync rest

/-- The two core instances visible to the lazy-with wrapper: the wrapped
inner core itself, and the derived core obtained from the inner core's own
`With`. -/
inductive CoreRef where
  | innerCore
  | derivedCore
  deriving DecidableEq

/-- The state of the handle a caller holds on a lazily-wrapped logger:
still the lazy wrapper with its pending fields unflushed, the lazy wrapper
after its one-shot flush, or the plain derived core returned by a chained
`With`. -/
inductive LazyHandle where
  | lazyNew
  | lazyInit
  | derived
  deriving DecidableEq

/-- One operation a caller performs on the current handle: deriving a
further context (`addWith`, the caller keeping the returned core) or a
log call (`logEvent`, a Check followed by the Write of the produced
token). -/
inductive LazyOp where
  | addWith (fs : List Field)
  | logEvent (e : Entry)

/-- Observations of a run against a lazily-wrapped inner core: the current
handle state, how many times the wrapped inner instance's own `With` ran,
and which core instance received each forwarded Check. -/
structure LazyObs where
  handle : LazyHandle
  innerWithCalls : Nat
  checkTargets : List CoreRef

def lazyStart : LazyObs :=
  { handle := .lazyNew, innerWithCalls := 0, checkTargets := [] }

/-- Modelled from the spec: the missing lazy-with core.  The pending fields
are flushed into the inner core's own `With` exactly once, on the first
Check or the first chained `With` — the flush replaces the wrapper's
target by the derived core, so a chained `With` returns the derived
core's own derivation and every forwarded Check reaches the derived core,
never the wrapped inner instance. -/
def lazyStep (s : LazyObs) : LazyOp → LazyObs
  | .addWith _ =>
    match s.handle with
    | .lazyNew => { s with handle := .derived, innerWithCalls := s.innerWithCalls + 1 }
    | .lazyInit => { s with handle := .derived }
    | .derived => s
  | .logEvent _ =>
    match s.handle with
    | .lazyNew =>
      { handle := .lazyInit, innerWithCalls := s.innerWithCalls + 1,
        checkTargets := s.checkTargets ++ [.derivedCore] }
    | .lazyInit => { s with checkTargets := s.checkTargets ++ [.derivedCore] }
    | .derived => { s with checkTargets := s.checkTargets ++ [.derivedCore] }

/-- A caller-side run against a fresh lazily-wrapped core. -/
def lazyRun (ops : List LazyOp) : LazyObs := ops.foldl lazyStep lazyStart

/-- Modelled from the spec: the line-splitting loop of the missing
line-buffering adapter.  Incoming bytes are consumed one at a time: a
line feed emits the pending buffer as a completed record, any other byte
is retained in the buffer. -/
def feed : List Char → List Char → List (List Char) × List Char
  | buf, [] => ([], buf)
  | buf, c :: rest =>
    if c = '\n' then
      let r := feed [] rest
      (buf :: r.1, r.2)
    else feed (buf ++ [c]) rest

/-- Modelled from the spec: the missing line-buffering adapter, observed
through its pending partial-line buffer and the records it has emitted to
the injected core; `enabled` records whether the injected core accepts the
adapter's configured level. -/
structure LineWriter where
  enabled : Bool
  buf : List Char
  records : List String
  deriving DecidableEq

def LineWriter.start : LineWriter := { enabled := true, buf := [], records := [] }

/-- Modelled from the spec: `Write` of the missing line-buffering adapter —
a no-op when the configured level is not enabled, otherwise the written
bytes are split on line feeds, one record per completed line, the trailing
partial line retained across writes. -/
def LineWriter.write (w : LineWriter) (s : String) : LineWriter :=
  if w.enabled then
    let r := feed w.buf s.toList
    { w with buf := r.2, records := w.records ++ r.1.map (fun cs => String.mk cs) }
  else w

/-- Modelled from the spec: the explicit flush of the missing line-buffering
adapter — a no-op on an empty buffer, otherwise the pending partial line
is emitted as one record without a trailing terminator and the buffer is
cleared. -/
def LineWriter.sync (w : LineWriter) : LineWriter :=
  if w.buf = [] then w
  else
    { w with buf := [],
             records := w.records ++ (if w.enabled then [String.mk w.buf] else []) }

/-- A sequence of writes against a fresh adapter. -/
def runWrites (ss : List String) : LineWriter := ss.foldl LineWriter.write .start

/-- The inverse of line splitting: every record followed by its line feed,
then the pending partial line. -/
def joinRecs (recs : List (List Char)) (buf : List Char) : List Char :=
  (recs.map (fun r => r ++ ['\n'])).flatten ++ buf

/-- The encoder configuration of the json-encoder test-suite (keys
M/L/T/N/C/F/S with a lowercase level renderer). -/
def testCfg : EncoderConfig :=
  { messageKey := "M", levelKey := "L", timeKey := "T", nameKey := "N",
    callerKey := "C", functionKey := "F", stacktraceKey := "S",
    encodeLevel := some lowercaseLevelEncoder }

/-- The zero-time entry of the json-encoder test-suite. -/
def zeroTimeEntry : Entry :=
  { level := infoLevel, time := .zero, loggerName := "name", message := "message" }

/-- A zero-value encoder configuration: no keys and no renderer hooks. -/
def emptyCfg : EncoderConfig := {}

/-- The configuration of the no-level-renderer test: every key configured
but no level renderer supplied. -/
def noLevelCfg : EncoderConfig :=
  { messageKey := "M", levelKey := "L", timeKey := "T", nameKey := "N",
    callerKey := "C", functionKey := "F", stacktraceKey := "S" }

/-- A non-zero-time entry used by the encoder tests. -/
def sampleEntry : Entry :=
  { level := debugLevel, time := .stamp 1718814822000000000,
    loggerName := "mylogger", message := "things happened" }

/-- Claim C3 counterexample: the claim quantifies over all `L1 ≤ L2` and
demands that a record at level L1 be reported as not enabled, but at
`L1 = L2 = info` a plain info threshold reports a record at level info as
enabled (`other >= self` holds at equality), so the claim as stated is
false. -/
theorem level_equal_threshold_enabled_cex :
    ¬ (Level.enabled infoLevel infoLevel = false) := by decide

/-- Claim C3 (amended): for all levels `L1 < L2`, a core whose LevelEnabler
is the plain level threshold L2 reports a record at level L1 as not
enabled and reports a record at any level ≥ L2 as enabled; a plain level
threshold enables exactly the levels satisfying `other >= self`. -/
theorem level_filtering_roundtrip (l1 l2 : Level) (h : l1 < l2) :
    (∀ i accum, (LeafCore.mk i l2 accum).enabledAt l1 = false)
    ∧ (∀ l : Level, l2 ≤ l → ∀ i accum, (LeafCore.mk i l2 accum).enabledAt l = true)
    ∧ (∀ self other : Level, Level.enabled self other = true ↔ other ≥ self) := by
  refine ⟨?_, ?_, ?_⟩
  · intro i accum
    simp [LeafCore.enabledAt, Level.enabled]
    exact h
  · intro l hl i accum
    simp [LeafCore.enabledAt, Level.enabled]
    exact hl
  · intro self other
    simp [Level.enabled]

/-- Witness for the amended claim C3 at the concrete pair info < warn. -/
theorem level_filtering_roundtrip_witness :
    infoLevel < warnLevel
    ∧ ((∀ i accum, (LeafCore.mk i warnLevel accum).enabledAt infoLevel = false)
      ∧ (∀ l : Level, warnLevel ≤ l → ∀ i accum, (LeafCore.mk i warnLevel accum).enabledAt l = true)
      ∧ (∀ self other : Level, Level.enabled self other = true ↔ other ≥ self)) :=
  ⟨by decide, level_filtering_roundtrip infoLevel warnLevel (by decide)⟩

/-- Once the handle on a lazily-wrapped logger has left the unflushed
state, no further operation touches the wrapped inner core's `With`, and
the handle never returns to the unflushed state. -/
theorem lazyRun_settled (ops : List LazyOp) :
    ∀ s : LazyObs, s.handle ≠ .lazyNew →
      (ops.foldl lazyStep s).innerWithCalls = s.innerWithCalls
      ∧ (ops.foldl lazyStep s).handle ≠ .lazyNew := by
  induction ops with
  | nil => exact fun s h => ⟨rfl, h⟩
  | cons op rest ih =>
    intro s h
    obtain ⟨hd, wc, ct⟩ := s
    cases hd with
    | lazyNew => exact absurd rfl h
    | lazyInit =>
      cases op with
      | addWith fs => simpa [lazyStep] using ih _ (by simp [lazyStep])
      | logEvent e => simpa [lazyStep] using ih _ (by simp [lazyStep])
    | derived =>
      cases op with
      | addWith fs => simpa [lazyStep] using ih _ (by simp [lazyStep])
      | logEvent e => simpa [lazyStep] using ih _ (by simp [lazyStep])

/-- Claim C4: a lazy-with core on which no operation is ever performed calls
the inner core's `With` zero times; any non-empty sequence of chained
`With` operations and log calls results in exactly one call to the inner
core's `With`, regardless of how many operations follow. -/
theorem lazy_with_flush_once (ops : List LazyOp) (h : ops ≠ []) :
    (lazyRun []).innerWithCalls = 0 ∧ (lazyRun ops).innerWithCalls = 1 := by
  refine ⟨rfl, ?_⟩
  match ops, h with
  | op :: rest, _ =>
    show (rest.foldl lazyStep (lazyStep lazyStart op)).innerWithCalls = 1
    have h1 : (lazyStep lazyStart op).innerWithCalls = 1
        ∧ (lazyStep lazyStart op).handle ≠ .lazyNew := by
      cases op <;> simp [lazyStep, lazyStart]
    have h2 := lazyRun_settled rest (lazyStep lazyStart op) h1.2
    rw [h2.1, h1.1]

/-- Witness for claim C4: a single chained `With` flushes exactly once. -/
theorem lazy_with_flush_once_witness :
    ([LazyOp.addWith []] ≠ [])
    ∧ ((lazyRun []).innerWithCalls = 0
      ∧ (lazyRun [LazyOp.addWith []]).innerWithCalls = 1) :=
  ⟨by simp, lazy_with_flush_once [LazyOp.addWith []] (by simp)⟩

/-- Checks forwarded by the lazy wrapper only ever reach the derived core,
so a run never adds the wrapped inner instance to the check targets. -/
theorem lazyRun_check_targets (ops : List LazyOp) :
    ∀ s : LazyObs, CoreRef.innerCore ∉ s.checkTargets →
      CoreRef.innerCore ∉ (ops.foldl lazyStep s).checkTargets := by
  induction ops with
  | nil => exact fun s h => h
  | cons op rest ih =>
    intro s h
    obtain ⟨hd, wc, ct⟩ := s
    cases hd <;> cases op <;>
      exact ih _ (by simp [lazyStep] at h ⊢; simp [h])

/-- Claim C9: no sequence of `With`, `Check` and `Write` operations on a
lazy-with core ever invokes the wrapped inner core's own `Check`: every
forwarded check is routed to the derived core returned by the inner
core's `With`, so the inner instance's check count stays zero forever. -/
theorem lazy_inner_check_never (ops : List LazyOp) :
    CoreRef.innerCore ∉ (lazyRun ops).checkTargets :=
  lazyRun_check_targets ops lazyStart (by simp [lazyStart])

/-- Rendering of one field never consults the configured time key. -/
theorem encodeField_timeKey_irrel (cfg : EncoderConfig) (f : Field) :
    encodeField { cfg with timeKey := "" } f = encodeField cfg f := rfl

/-- Rendering of the field list never consults the configured time key, so
suppressing the time key leaves the fields part of the output unchanged. -/
theorem encodeFields_timeKey_irrel (cfg : EncoderConfig) (fs : List Field) :
    encodeFields { cfg with timeKey := "" } fs = encodeFields cfg fs := by
  induction fs with
  | nil => rfl
  | cons f rest ih =>
    cases h : f.type <;>
      simp [encodeFields, h, ih, encodeField_timeKey_irrel cfg f]

/-- Claim C7: for every entry whose timestamp is the zero time value,
EncodeEntry on the JSON encoder omits the time key from the output
entirely — the output coincides with that of the same configuration with
the time key suppressed — even when the configured time key is non-empty,
and all other configured attributes are still rendered (pinned by the
concrete zero-time test vector). -/
theorem json_zero_time_omitted
    (cfg : EncoderConfig) (e : Entry) (fs : List Field) (h : e.time = .zero) :
    (encodeEntry cfg e fs = encodeEntry { cfg with timeKey := "" } e fs)
    ∧ (encodeEntry testCfg zeroTimeEntry []
        = [("M", .str "message"), ("L", .str "info"), ("N", .str "name")]) := by
  refine ⟨?_, rfl⟩
  simp [encodeEntry, h, encodeFields_timeKey_irrel]

/-- Witness for claim C7 at the zero-time test entry. -/
theorem json_zero_time_omitted_witness :
    (zeroTimeEntry.time = LTime.zero)
    ∧ ((encodeEntry testCfg zeroTimeEntry []
          = encodeEntry { testCfg with timeKey := "" } zeroTimeEntry [])
      ∧ (encodeEntry testCfg zeroTimeEntry []
          = [("M", .str "message"), ("L", .str "info"), ("N", .str "name")])) :=
  ⟨rfl, json_zero_time_omitted testCfg zeroTimeEntry [] rfl⟩

/-- Claim C8: a reflect-typed field whose payload is nil — whether the
literal nil interface or a typed pointer holding nil — encodes as a JSON
null value for its key under every configuration (encoding is a total
function, so it cannot crash), and the rest of the record is rendered
normally after it. -/
theorem reflect_nil_encodes_null
    (cfg : EncoderConfig) (k : String) (rest : List Field) :
    (encodeField cfg (reflectField k .anyNil) = (k, .null))
    ∧ (encodeField cfg (reflectField k .typedNil) = (k, .null))
    ∧ (encodeFields cfg (reflectField k .anyNil :: rest)
        = (k, .null) :: encodeFields cfg rest)
    ∧ (encodeFields cfg (reflectField k .typedNil :: rest)
        = (k, .null) :: encodeFields cfg rest) :=
  ⟨rfl, rfl, rfl, rfl⟩

/-- Claim C10: EncodeEntry under a completely zero-value EncoderConfig
renders only the fields, a time-typed field falling back to its epoch
nanoseconds and a duration-typed field to its nanosecond count (and, the
encoder being a total function, no error is returned); likewise a
configuration with every key set but no level renderer encodes without
error, simply omitting the level attribute. -/
theorem json_empty_config_fallback :
    (encodeEntry emptyCfg sampleEntry [timeField "foo" 1591287718000000000]
      = [("foo", .int 1591287718000000000)])
    ∧ (encodeEntry emptyCfg sampleEntry [durationField "bar" 1000]
      = [("bar", .int 1000)])
    ∧ (encodeEntry noLevelCfg
        { level := infoLevel, time := .stamp 1529426022000000099,
          loggerName := "bob", message := "lob law" }
        [intField "answer" 42]
      = [("M", .str "lob law"), ("T", .int 1529426022000000099),
         ("N", .str "bob"), ("answer", .int 42)]) :=
  ⟨rfl, rfl, rfl⟩

/-- Iterating Write on an already-consumed token only appends illegal-reuse
diagnostics: the deliveries, the consumed flag and the carried entry are
all unchanged. -/
theorem writeAll_dirty (fss : List (List Field)) :
    ∀ ce : CheckedEntry, ce.dirty = true →
      ((ce.writeAll fss).deliveries = ce.deliveries
      ∧ (ce.writeAll fss).errorOutput
          = ce.errorOutput ++ fss.map (fun _ => reuseDiagnostic ce.entry)
      ∧ (ce.writeAll fss).dirty = true
      ∧ (ce.writeAll fss).entry = ce.entry) := by
  induction fss with
  | nil =>
    intro ce h
    exact ⟨rfl, by simp [CheckedEntry.writeAll], h, rfl⟩
  | cons fs rest ih =>
    intro ce h
    have hw : ce.write fs
        = { ce with errorOutput := ce.errorOutput ++ [reuseDiagnostic ce.entry] } := by
      simp [CheckedEntry.write, h]
    have step : ce.writeAll (fs :: rest)
        = ({ ce with errorOutput := ce.errorOutput ++ [reuseDiagnostic ce.entry]
            } : CheckedEntry).writeAll rest := by
      show List.foldl CheckedEntry.write (ce.write fs) rest = _
      rw [hw]
      rfl
    rw [step]
    have hrec := ih { ce with errorOutput := ce.errorOutput ++ [reuseDiagnostic ce.entry] }
      (by simpa using h)
    refine ⟨hrec.1, ?_, hrec.2.2.1, hrec.2.2.2⟩
    rw [hrec.2.1]
    simp

/-- Claim C1: a CheckedEntry produced by a successful Check delivers the
record to the accepting core exactly once on the first Write, writing
nothing to the error sink; every subsequent Write on the same instance
appends one diagnostic identifying the illegal reuse and the original
entry to the configured error sink, performs no further delivery, and —
Write being a total function — never crashes. -/
theorem checkedEntry_write_once
    (c : LeafCore) (e : Entry) (ce : CheckedEntry)
    (hce : c.check e none = some ce)
    (fs : List Field) (fss : List (List Field)) :
    ((ce.write fs).deliveries = [(c.id, e, fs)])
    ∧ ((ce.write fs).errorOutput = [])
    ∧ (((ce.write fs).writeAll fss).deliveries = [(c.id, e, fs)])
    ∧ (((ce.write fs).writeAll fss).errorOutput
        = fss.map fun _ => reuseDiagnostic e) := by
  unfold LeafCore.check at hce
  by_cases hen : c.enabledAt e.level
  · rw [if_pos hen] at hce
    have hce' : ce = (CheckedEntry.fresh e).addCore c.id := by
      injection hce with h'
      exact h'.symm
    subst hce'
    have h1 : ((CheckedEntry.fresh e).addCore c.id).write fs
        = ⟨e, [c.id], true, [], [(c.id, e, fs)]⟩ := by
      simp [CheckedEntry.fresh, CheckedEntry.addCore, CheckedEntry.write]
    rw [h1]
    have h2 := writeAll_dirty fss ⟨e, [c.id], true, [], [(c.id, e, fs)]⟩ rfl
    exact ⟨rfl, rfl, h2.1, by simpa using h2.2.1⟩
  · rw [if_neg hen] at hce
    exact absurd hce (by simp)

/-- Witness for claim C1: a concrete info-level check followed by two
writes. -/
theorem checkedEntry_write_once_witness :
    ((LeafCore.mk 7 infoLevel []).check { message := "hello" } none
        = some ((CheckedEntry.fresh { message := "hello" }).addCore 7))
    ∧ (((((CheckedEntry.fresh { message := "hello" }).addCore 7).write
            [strField "k" "v"]).deliveries
          = [(7, { message := "hello" }, [strField "k" "v"])])
      ∧ ((((CheckedEntry.fresh { message := "hello" }).addCore 7).write
            [strField "k" "v"]).errorOutput = [])
      ∧ (((((CheckedEntry.fresh { message := "hello" }).addCore 7).write
            [strField "k" "v"]).writeAll [[strField "foo" "bar"]]).deliveries
          = [(7, { message := "hello" }, [strField "k" "v"])])
      ∧ (((((CheckedEntry.fresh { message := "hello" }).addCore 7).write
            [strField "k" "v"]).writeAll [[strField "foo" "bar"]]).errorOutput
          = [[strField "foo" "bar"]].map
              fun _ => reuseDiagnostic { message := "hello" })) :=
  ⟨rfl, checkedEntry_write_once (LeafCore.mk 7 infoLevel []) { message := "hello" }
    ((CheckedEntry.fresh { message := "hello" }).addCore 7) rfl
    [strField "k" "v"] [[strField "foo" "bar"]]⟩

/-- Claim C2: `With` returns a new core whose accumulated field prefix is
the receiver's followed by the added fields, the receiver's accumulation
being unchanged (a sibling derived afterwards from the same base still
sees only the base prefix), and a record written through one sibling
never contains the other sibling's distinguishing field. -/
theorem core_with_sibling_isolation
    (base : LeafCore) (fs extra : List Field) (fc fd : Field)
    (hne : fd ≠ fc) (hbase : fd ∉ base.accum) (hextra : fd ∉ extra) :
    ((base.withFields fs).accum = base.accum ++ fs)
    ∧ ((base.withFields [fc]).accum = base.accum ++ [fc])
    ∧ ((base.withFields [fd]).accum = base.accum ++ [fd])
    ∧ (fd ∉ (base.withFields [fc]).writtenFields extra) := by
  refine ⟨rfl, rfl, rfl, ?_⟩
  intro hmem
  simp [LeafCore.withFields, LeafCore.writtenFields, hne, hbase, hextra] at hmem

/-- Witness for claim C2 at a concrete base core and sibling fields. -/
theorem core_with_sibling_isolation_witness :
    (strField "d" "4" ≠ strField "c" "3"
      ∧ strField "d" "4" ∉ [strField "a" "1", strField "b" "2"]
      ∧ strField "d" "4" ∉ [strField "e" "5"])
    ∧ ((((LeafCore.mk 0 infoLevel [strField "a" "1", strField "b" "2"]).withFields
          [strField "c" "3"]).accum
        = [strField "a" "1", strField "b" "2"] ++ [strField "c" "3"])
      ∧ (((LeafCore.mk 0 infoLevel [strField "a" "1", strField "b" "2"]).withFields
          [strField "c" "3"]).accum
        = [strField "a" "1", strField "b" "2"] ++ [strField "c" "3"])
      ∧ (((LeafCore.mk 0 infoLevel [strField "a" "1", strField "b" "2"]).withFields
          [strField "d" "4"]).accum
        = [strField "a" "1", strField "b" "2"] ++ [strField "d" "4"])
      ∧ (strField "d" "4"
          ∉ ((LeafCore.mk 0 infoLevel [strField "a" "1", strField "b" "2"]).withFields
              [strField "c" "3"]).writtenFields [strField "e" "5"])) :=
  ⟨⟨by simp [strField], by simp [strField], by simp [strField]⟩,
    core_with_sibling_isolation
      (LeafCore.mk 0 infoLevel [strField "a" "1", strField "b" "2"])
      [strField "c" "3"] [strField "e" "5"] (strField "c" "3") (strField "d" "4")
      (by simp [strField]) (by simp [strField]) (by simp [strField])⟩

/-- Claim C5: the tee core performs Write on every child in registration
order, Sync flushes every child, and in both cases the returned error is
the combination of all children's errors in order — no child's error
suppresses another's; in particular, when two children both fail Sync the
tee's combined Sync error reflects both underlying failures. -/
theorem tee_error_aggregation
    (children : List ChildCore) (e : Entry) (fs : List Field)
    (c1 c2 : ChildCore) (e1 e2 : String)
    (h1 : c1.syncErr = some e1) (h2 : c2.syncErr = some e2) :
    ((teeWrite children e fs).1 = children.map fun c => (c.id, e, fs))
    ∧ ((teeWrite children e fs).2
        = (children.map fun c => errList c.writeErr).flatten)
    ∧ (teeSync children = (children.map fun c => errList c.syncErr).flatten)
    ∧ (teeSync [c1, c2] = [e1, e2]) := by
  refine ⟨?_, ?_, ?_, ?_⟩
  · induction children with
    | nil => rfl
    | cons c rest ih => simp [teeWrite, ih]
  · induction children with
    | nil => rfl
    | cons c rest ih => simp [teeWrite, ih]
  · induction children with
    | nil => rfl
    | cons c rest ih => simp [teeSync, ih]
  · simp [teeSync, errList, h1, h2]

/-- Witness for claim C5: two concrete children that both fail Sync. -/
theorem tee_error_aggregation_witness :
    ((ChildCore.mk 1 none (some "disk full")).syncErr = some "disk full"
      ∧ (ChildCore.mk 2 none (some "pipe closed")).syncErr = some "pipe closed")
    ∧ (((teeWrite [ChildCore.mk 1 none (some "disk full"),
            ChildCore.mk 2 none (some "pipe closed")] {} []).1
        = [ChildCore.mk 1 none (some "disk full"),
            ChildCore.mk 2 none (some "pipe closed")].map fun c => (c.id, {}, []))
      ∧ ((teeWrite [ChildCore.mk 1 none (some "disk full"),
            ChildCore.mk 2 none (some "pipe closed")] {} []).2
          = ([ChildCore.mk 1 none (some "disk full"),
              ChildCore.mk 2 none (some "pipe closed")].map
                fun c => errList c.writeErr).flatten)
      ∧ (teeSync [ChildCore.mk 1 none (some "disk full"),
            ChildCore.mk 2 none (some "pipe closed")]
          = ([ChildCore.mk 1 none (some "disk full"),
              ChildCore.mk 2 none (some "pipe closed")].map
                fun c => errList c.syncErr).flatten)
      ∧ (teeSync [ChildCore.mk 1 none (some "disk full"),
            ChildCore.mk 2 none (some "pipe closed")]
          = ["disk full", "pipe closed"])) :=
  ⟨⟨rfl, rfl⟩,
    tee_error_aggregation
      [ChildCore.mk 1 none (some "disk full"), ChildCore.mk 2 none (some "pipe closed")]
      {} [] (ChildCore.mk 1 none (some "disk full"))
      (ChildCore.mk 2 none (some "pipe closed")) "disk full" "pipe closed" rfl rfl⟩

/-- Packing a character list into a string and unpacking it is the
identity. -/
theorem toList_mk (cs : List Char) : (String.mk cs).toList = cs := rfl

/-- Line splitting is lossless: the emitted records, each with its line
feed restored, followed by the pending buffer, reconstruct the buffered
input. -/
theorem feed_reconstruct (input : List Char) :
    ∀ buf : List Char,
      joinRecs (feed buf input).1 (feed buf input).2 = buf ++ input := by
  induction input with
  | nil => intro buf; simp [feed, joinRecs]
  | cons c rest ih =>
    intro buf
    by_cases hc : c = '\n'
    · subst hc
      have h0 := ih []
      simp only [feed, if_pos rfl]
      simp only [joinRecs, List.map_cons, List.flatten_cons, List.append_assoc] at h0 ⊢
      simp [h0]
    · simp only [feed, if_neg hc]
      have h0 := ih (buf ++ [c])
      simpa [List.append_assoc] using h0

/-- Line splitting emits no record containing a line feed and never leaves
a line feed in the pending buffer. -/
theorem feed_no_newline (input : List Char) :
    ∀ buf : List Char, '\n' ∉ buf →
      (∀ r ∈ (feed buf input).1, '\n' ∉ r) ∧ '\n' ∉ (feed buf input).2 := by
  induction input with
  | nil =>
    intro buf h
    exact ⟨by simp [feed], by simpa [feed] using h⟩
  | cons c rest ih =>
    intro buf h
    by_cases hc : c = '\n'
    · subst hc
      have h0 := ih [] (by simp)
      simp only [feed, if_pos rfl]
      exact ⟨by
        intro r hr
        rcases List.mem_cons.mp hr with hr | hr
        · subst hr; exact h
        · exact h0.1 r hr, h0.2⟩
    · have hb : '\n' ∉ buf ++ [c] := by
        intro hmem
        rcases List.mem_append.mp hmem with hm | hm
        · exact h hm
        · exact hc (List.mem_singleton.mp hm).symm
      simp only [feed, if_neg hc]
      exact ih (buf ++ [c]) hb

/-- Splitting a list of records at the front of a join. -/
theorem joinRecs_append (a b : List (List Char)) (buf : List Char) :
    joinRecs (a ++ b) buf = (a.map (fun r => r ++ ['\n'])).flatten ++ joinRecs b buf := by
  simp [joinRecs]

/-- A write-run invariant of the line-buffering adapter: an enabled adapter
whose records and pending buffer contain no line feed keeps that shape,
and the run appends exactly the written bytes to the reconstruction of
its output. -/
theorem runWrites_invariant (ss : List String) :
    ∀ w : LineWriter, w.enabled = true → '\n' ∉ w.buf →
      (∀ r ∈ w.records, '\n' ∉ r.toList) →
      ((ss.foldl LineWriter.write w).enabled = true
      ∧ joinRecs ((ss.foldl LineWriter.write w).records.map String.toList)
          (ss.foldl LineWriter.write w).buf
        = joinRecs (w.records.map String.toList) w.buf ++ (ss.map String.toList).flatten
      ∧ '\n' ∉ (ss.foldl LineWriter.write w).buf
      ∧ (∀ r ∈ (ss.foldl LineWriter.write w).records, '\n' ∉ r.toList)) := by
  induction ss with
  | nil =>
    intro w he hb hr
    exact ⟨he, by simp, hb, hr⟩
  | cons s rest ih =>
    intro w he hb hr
    have hwrite : w.write s
        = { w with buf := (feed w.buf s.toList).2,
                   records := w.records
                     ++ (feed w.buf s.toList).1.map (fun cs => String.mk cs) } := by
      simp [LineWriter.write, he]
    have hnn := feed_no_newline s.toList w.buf hb
    have hrec' : ∀ r ∈ (w.write s).records, '\n' ∉ r.toList := by
      rw [hwrite]
      intro r hr'
      rcases List.mem_append.mp hr' with hm | hm
      · exact hr r hm
      · rcases List.mem_map.mp hm with ⟨cs, hcs, hrfl⟩
        subst hrfl
        exact hnn.1 cs hcs
    have hbuf' : '\n' ∉ (w.write s).buf := by
      rw [hwrite]; exact hnn.2
    have hen' : (w.write s).enabled = true := by rw [hwrite]; exact he
    have step := ih (w.write s) hen' hbuf' hrec'
    refine ⟨step.1, ?_, step.2.2.1, step.2.2.2⟩
    show joinRecs ((rest.foldl LineWriter.write (w.write s)).records.map String.toList)
        (rest.foldl LineWriter.write (w.write s)).buf = _
    rw [step.2.1]
    have hcomp : (String.toList ∘ fun cs : List Char => String.mk cs) = id := by
      funext cs
      rfl
    have hmk : ((feed w.buf s.toList).1.map (fun cs => String.mk cs)).map String.toList
        = (feed w.buf s.toList).1 := by
      rw [List.map_map, hcomp, List.map_id]
    have hjoin : joinRecs ((w.write s).records.map String.toList) (w.write s).buf
        = joinRecs (w.records.map String.toList) w.buf ++ s.toList := by
      rw [hwrite]
      simp only [List.map_append, hmk]
      rw [joinRecs_append, feed_reconstruct s.toList w.buf]
      simp [joinRecs, List.append_assoc]
    rw [hjoin]
    simp [List.append_assoc]

/-- Claim C6: the byte stream written to the line-buffering adapter is
split into records exactly at line-feed boundaries with any trailing
partial line retained across writes (the records with their line feeds
restored reconstruct the stream, and neither a record nor the pending
buffer ever contains a line feed); an explicit flush always clears the
buffer, emitting a non-empty pending partial line as one record without a
trailing terminator and emitting nothing on an empty buffer; and the
concrete run writing "foo", then "bar\nbaz", then "qux" yields exactly the
records "foobar" and — after the flush — "bazqux". -/
theorem line_buffer_split_fidelity :
    (∀ ss : List String,
      joinRecs ((runWrites ss).records.map String.toList) (runWrites ss).buf
        = (ss.map String.toList).flatten
      ∧ '\n' ∉ (runWrites ss).buf
      ∧ (∀ r ∈ (runWrites ss).records, '\n' ∉ r.toList))
    ∧ (∀ w : LineWriter,
      (w.sync).buf = []
      ∧ (w.sync).records = w.records
          ++ (if w.buf = [] then []
              else if w.enabled then [String.mk w.buf] else []))
    ∧ ((runWrites ["foo", "bar\nbaz", "qux"]).records = ["foobar"]
      ∧ (runWrites ["foo", "bar\nbaz", "qux"]).buf = "bazqux".toList
      ∧ (runWrites ["foo", "bar\nbaz", "qux"]).sync.records = ["foobar", "bazqux"]
      ∧ (runWrites ["foo", "bar\nbaz", "qux"]).sync.buf = []
      ∧ ((runWrites ["foo", "bar\nbaz", "qux"]).sync.sync
          = (runWrites ["foo", "bar\nbaz", "qux"]).sync)) := by
  refine ⟨?_, ?_, ?_⟩
  · intro ss
    have h := runWrites_invariant ss LineWriter.start rfl (by simp [LineWriter.start])
      (by simp [LineWriter.start])
    refine ⟨?_, h.2.2.1, h.2.2.2⟩
    have h2 := h.2.1
    simpa [LineWriter.start, joinRecs] using h2
  · intro w
    by_cases hb : w.buf = []
    · simp [LineWriter.sync, hb]
    · simp [LineWriter.sync, hb]
  · exact ⟨by decide, by decide, by decide, by decide, by decide⟩

end Lad
